import Mathlib

/-!
Verification of the content-ordering engine (`sort_pages` and
`compare_by_path_lexically` in `src/components/content/src/sorting.rs`).

The Rust code is shallowly embedded as executable Lean definitions:

* a `Page` carries the attributes the sorter reads (`meta.datetime`,
  `meta.updated_datetime`, `meta.title`, `meta.weight`, `file.path`,
  `permalink`); timestamps are modelled as `Nat` (NaiveDateTime is a
  linearly ordered value, e.g. `2017-01-01` becomes `20170101`);
* a `PathBuf` becomes `FPath`: either a displayable (valid UTF-8) string
  or a raw non-UTF-8 byte sequence; `Path::to_str` is `pathToStr` and the
  raw byte representation is `rawBytes`;
* the `rayon` data-parallel partition/sort pipeline is modelled as
  `List.partition` followed by a comparison sort with the very comparator
  the source passes to `par_sort_unstable_by`; the determinism theorems
  show the sorted result is the unique sorted permutation whenever the
  comparator is a strict total order, so the choice of sorting algorithm
  (and its parallel schedule) cannot be observed;
* Rust `unwrap` on the options read by the comparator is modelled by
  `unwrapN` / `unwrapS` (`Option.getD` with a junk default); a dedicated
  theorem shows each such option is `some` for every page that reaches
  the comparator, so the default is never used;
* `SortBy::None` makes the source panic (`unreachable!()`); accordingly
  `sort_pages` returns `Option`, with `none` exactly for `SortBy.None`;
* the non-displayable fallback `a.file.path.cmp(&b.file.path)` is Rust's
  `Ord for Path`, which compares component-wise; it is modelled by
  `pathComponents` (splitting the raw bytes at separators with the
  normalization of `Path::components`) and `pathBufCmp` (lexicographic
  comparison of the component sequences).
-/

namespace SortingSpec

/-- Ordering criterion, mirroring the Rust `SortBy` enum. -/
inductive SortBy where
  | Date
  | UpdateDate
  | Title
  | TitleBytes
  | Weight
  | Path
  | None
deriving DecidableEq

/-- UTF-8 encoding of a unicode code point, as the list of its byte values.
This models how Rust stores a `String`/`PathBuf` in memory. -/
def encodeCharCode (n : Nat) : List Nat :=
  if n < 128 then [n]
  else if n < 2048 then [192 + n / 64, 128 + n % 64]
  else if n < 65536 then [224 + n / 4096, 128 + (n / 64) % 64, 128 + n % 64]
  else [240 + n / 262144, 128 + (n / 4096) % 64, 128 + (n / 64) % 64, 128 + n % 64]

/-- UTF-8 byte sequence of a string. -/
def utf8Bytes (s : String) : List Nat :=
  (s.data.map (fun c => encodeCharCode c.toNat)).flatten

/-- Model of Rust `PathBuf` (`file.path`): either a path whose bytes are
valid UTF-8 (so `to_str` succeeds and yields the string), or a raw byte
sequence that is not valid UTF-8 (so `to_str` returns `None`). -/
inductive FPath where
  | utf8 (s : String)
  | nonUtf8 (bytes : List Nat)
deriving DecidableEq

/-- Model of `Path::to_str`: the displayable string, when the path is
representable as one. -/
def pathToStr : FPath → Option String
  | .utf8 s => some s
  | .nonUtf8 _ => none

/-- Raw byte representation of a path (the `OsStr` bytes). -/
def rawBytes : FPath → List Nat
  | .utf8 s => utf8Bytes s
  | .nonUtf8 bs => bs

/-- Record being ordered, with exactly the attributes `sort_pages` reads. -/
structure Page where
  datetime : Option Nat
  updated_datetime : Option Nat
  title : Option String
  weight : Option Nat
  path : FPath
  permalink : String
deriving DecidableEq

/-- Lexicographic comparison of two lists under an element comparator:
the first non-equal position decides; a strict prefix orders first. -/
def listCmp (f : α → α → Ordering) : List α → List α → Ordering
  | [], [] => .eq
  | [], _ :: _ => .lt
  | _ :: _, [] => .gt
  | a :: as, b :: bs =>
    match f a b with
    | .eq => listCmp f as bs
    | o => o

/-- Comparison of two characters by unicode code point.  On valid UTF-8
this coincides with byte-wise comparison of the encodings, so it models
Rust `str::cmp`. -/
def charCmp (a b : Char) : Ordering := compare a.toNat b.toNat

/-- Model of Rust `String`/`str` comparison (`Ord for str`): lexicographic
byte/code-point comparison. -/
def strCmp (a b : String) : Ordering := listCmp charCmp a.data b.data

/-- Byte-sequence comparison, modelling `OsStr` comparison. -/
def bytesCmp (a b : List Nat) : Ordering := listCmp (fun x y => compare x y) a b

/-- Path component in the sense of Rust `Path::components` (Unix rules;
the Windows-only prefix component is not modelled): the root directory, a
leading current-directory `.`, a parent-directory `..`, or a normal
component carrying its raw bytes. -/
inductive PathComp where
  | rootDir
  | curDir
  | parentDir
  | normal (bytes : List Nat)
deriving DecidableEq

/-- Splitting a byte sequence at separators (byte 47, `/`), keeping empty
chunks. -/
def splitSep : List Nat → List (List Nat)
  | [] => [[]]
  | n :: rest =>
    if n = 47 then [] :: splitSep rest
    else
      match splitSep rest with
      | chunk :: chunks => (n :: chunk) :: chunks
      | [] => [[n]]

/-- Non-empty pieces of a raw path: separators split it, and empty pieces
are dropped, which collapses repeated and trailing separators exactly as
Rust `Components` does. -/
def pathPieces (bs : List Nat) : List (List Nat) :=
  (splitSep bs).filter (fun p => !p.isEmpty)

/-- Components of the path body: every piece except `.` pieces, which
Rust `Components` normalizes away; a `..` piece is the parent-directory
component. -/
def bodyComps (pieces : List (List Nat)) : List PathComp :=
  pieces.filterMap (fun p =>
    if p = [46] then none
    else if p = [46, 46] then some PathComp.parentDir
    else some (PathComp.normal p))

/-- Model of Rust `Path::components` on the raw bytes: a leading
separator yields the root component; a leading `.` piece is kept (as the
current-directory component) only at the start of a rootless path;
repeated and trailing separators and interior `.` pieces are normalized
away. -/
def pathComponents (bs : List Nat) : List PathComp :=
  if bs.head? = some 47 then PathComp.rootDir :: bodyComps (pathPieces bs)
  else if bs = [46] ∨ bs.take 2 = [46, 47] then
    PathComp.curDir :: bodyComps (pathPieces bs)
  else bodyComps (pathPieces bs)

/-- Ordering of path components, mirroring the derived `Ord` of Rust's
`Component`: root before current before parent before normal components,
and normal components by their raw bytes. -/
def pathCompCmp : PathComp → PathComp → Ordering
  | .rootDir, .rootDir => .eq
  | .rootDir, _ => .lt
  | _, .rootDir => .gt
  | .curDir, .curDir => .eq
  | .curDir, _ => .lt
  | _, .curDir => .gt
  | .parentDir, .parentDir => .eq
  | .parentDir, _ => .lt
  | _, .parentDir => .gt
  | .normal p, .normal q => bytesCmp p q

/-- Rank of a component's constructor, matching the declaration order of
Rust's `Component` enum. -/
def compRank : PathComp → Nat
  | .rootDir => 0
  | .curDir => 1
  | .parentDir => 2
  | .normal _ => 3

/-- Raw bytes carried by a component (empty for the special ones). -/
def compBytes : PathComp → List Nat
  | .normal p => p
  | _ => []

/-- Model of Rust `Ord for Path` (`PathBuf::cmp`, the fallback at line 37
of sorting.rs): lexicographic comparison of the two component
sequences. -/
def pathBufCmp (a b : FPath) : Ordering :=
  listCmp pathCompCmp (pathComponents (rawBytes a)) (pathComponents (rawBytes b))

/-- Token produced by the natural-order tokenizer: a maximal digit run
(carrying its numeric value) or a single collation character of a
non-digit run (carrying its collation code). -/
inductive LexKey where
  | num (v : Nat)
  | chr (code : Nat)
deriving DecidableEq

/-- Comparison of two natural-order tokens: digit runs compare by numeric
value; collation characters compare by code; a digit run against a
character compares the way its (digit) characters would, which is decided
by whether the character lies below `0` (code 48) or above `9`. -/
def lexKeyCmp : LexKey → LexKey → Ordering
  | .num v, .num w => compare v w
  | .chr c, .chr d => compare c d
  | .num _, .chr d => if d < 48 then .gt else .lt
  | .chr c, .num _ => if c < 48 then .lt else .gt

/-- Test for an ASCII digit code. -/
def isDigitCode (n : Nat) : Bool := 48 ≤ n && n ≤ 57

/-- Case folding at the code level: ASCII uppercase maps to lowercase
(collation treats case as an insignificant, secondary distinction). -/
def lowerCode (n : Nat) : Nat := if 65 ≤ n && n ≤ 90 then n + 32 else n

/-- Modelled from the spec: the locale-aware transliteration table backing
the natural-order comparator (the `lexical_sort` library, which is not
part of this repository).  A base letter with diacritics, and letters
from other scripts, are folded onto their undecorated ASCII base so they
sort with it; the table covers the characters the specification
exercises. -/
def translitCode (n : Nat) : Nat :=
  if n = 229 then 97          -- å folds to a
  else if n = 233 then 101    -- é folds to e
  else if n = 214 then 79     -- Ö folds to O
  else if n = 956 then 109    -- μ folds to m
  else n

/-- One step of the natural-order tokenizer: digits extend the pending
digit run numerically; any other character first closes the pending run,
then is emitted as a case-folded collation character. -/
def lexStep : List LexKey × Option Nat → Nat → List LexKey × Option Nat
  | (acc, cur), n =>
    if isDigitCode n then (acc, some ((cur.getD 0) * 10 + (n - 48)))
    else
      match cur with
      | some v => (.chr (lowerCode n) :: .num v :: acc, none)
      | none => (.chr (lowerCode n) :: acc, none)

/-- Tokenization of a code sequence into maximal digit runs (by numeric
value) interleaved with case-folded collation characters. -/
def lexTokens (codes : List Nat) : List LexKey :=
  match codes.foldl lexStep ([], none) with
  | (acc, some v) => (LexKey.num v :: acc).reverse
  | (acc, none) => acc.reverse

/-- Modelled from the spec: `natural_lexical_cmp` of the `lexical_sort`
library (not part of this repository).  Each string is transliterated to
its collation codes and tokenized into maximal digit and non-digit runs;
runs are compared in sequence order, digit runs by numeric value and
non-digit runs by case-insensitive collation; when one side is exhausted
the shorter string orders first.  Strings differing only in
collation-insignificant ways (case, diacritics) compare equal here and
are separated by the caller's tie-break. -/
def natural_lexical_cmp (a b : String) : Ordering :=
  listCmp lexKeyCmp
    (lexTokens (a.data.map (fun c => translitCode c.toNat)))
    (lexTokens (b.data.map (fun c => translitCode c.toNat)))

/-- Comparison of optional timestamps, mirroring Rust `Ord for Option`:
`None` orders below every `Some`. -/
def cmpOptNat : Option Nat → Option Nat → Ordering
  | none, none => .eq
  | none, some _ => .lt
  | some _, none => .gt
  | some a, some b => compare a b

/-- Model of Rust `std::cmp::max` on optional timestamps: the larger
argument, the second one on ties. -/
def maxOpt (a b : Option Nat) : Option Nat :=
  if cmpOptNat a b = .gt then a else b

/-- Model of `Option::unwrap` on timestamps and weights; the junk default
is never reached on pages that pass the partition (proved below). -/
def unwrapN (o : Option Nat) : Nat := o.getD 0

/-- Model of `Option::unwrap` on titles; the junk default is never
reached on pages that pass the partition (proved below). -/
def unwrapS (o : Option String) : String := o.getD ""

/-- Partition predicate of `sort_pages` (lines 11-21 of sorting.rs): a
page can be sorted iff the attribute the criterion needs is present.  The
`SortBy.None` arm is `unreachable!()` in the source; `sort_pages` below
returns `none` before ever consulting it. -/
def eligible (sort_by : SortBy) (page : Page) : Bool :=
  match sort_by with
  | .Date => page.datetime.isSome
  | .UpdateDate => page.datetime.isSome || page.updated_datetime.isSome
  | .Title | .TitleBytes => page.title.isSome
  | .Weight => page.weight.isSome
  | .Path => true
  | .None => true

/-- Model of `compare_by_path_lexically` (lines 54-56 of sorting.rs):
natural-order comparison of the two displayable path strings, or `none`
when either path is not representable as one. -/
def compare_by_path_lexically (a b : FPath) : Option Ordering :=
  match pathToStr a, pathToStr b with
  | some sa, some sb => some (natural_lexical_cmp sa sb)
  | _, _ => none

/-- Per-criterion comparator of `sort_pages` (lines 24-39 of sorting.rs),
before the permalink tie-break.  The `SortBy.None` arm is
`unreachable!()` in the source and is never consulted by `sort_pages`. -/
def pageCmp (sort_by : SortBy) (a b : Page) : Ordering :=
  match sort_by with
  | .Date => compare (unwrapN b.datetime) (unwrapN a.datetime)
  | .UpdateDate =>
      compare (unwrapN (maxOpt b.datetime b.updated_datetime))
        (unwrapN (maxOpt a.datetime a.updated_datetime))
  | .Title => natural_lexical_cmp (unwrapS a.title) (unwrapS b.title)
  | .TitleBytes => strCmp (unwrapS a.title) (unwrapS b.title)
  | .Weight => compare (unwrapN a.weight) (unwrapN b.weight)
  | .Path =>
      (compare_by_path_lexically a.path b.path).getD
        (pathBufCmp a.path b.path)
  | .None => .eq

/-- Full comparator of `sort_pages` (lines 23-46 of sorting.rs): the
per-criterion ordering, with ties broken by ascending permalink
comparison. -/
def pageCmpTie (sort_by : SortBy) (a b : Page) : Ordering :=
  match pageCmp sort_by a b with
  | .eq => strCmp a.permalink b.permalink
  | o => o

/-- Non-strict order induced by the comparator (what a comparison sort
establishes between an earlier and a later element). -/
def pageLe (sort_by : SortBy) (a b : Page) : Prop :=
  pageCmpTie sort_by a b ≠ .gt

instance (sort_by : SortBy) : DecidableRel (pageLe sort_by) :=
  fun a b => inferInstanceAs (Decidable (pageCmpTie sort_by a b ≠ .gt))

/-- Pages that pass the partition predicate, in input order (`can_be_sorted`
in the source). -/
def can_be_sorted (pages : List Page) (sort_by : SortBy) : List Page :=
  (pages.partition (eligible sort_by)).1

/-- Pages rejected by the partition predicate (`cannot_be_sorted` in the
source). -/
def cannot_be_sorted (pages : List Page) (sort_by : SortBy) : List Page :=
  (pages.partition (eligible sort_by)).2

/-- The orderable pages sorted by the comparator.  The source sorts with
`par_sort_unstable_by`; any comparison sort is a faithful model because
the result is pinned down by being a sorted permutation (uniqueness is
proved below from the comparator being a strict total order). -/
def sorted_pages_list (pages : List Page) (sort_by : SortBy) : List Page :=
  List.insertionSort (pageLe sort_by) (can_be_sorted pages sort_by)

/-- Model of `sort_pages` (lines 10-52 of sorting.rs): partition the
input by eligibility, sort the orderable part with the tie-broken
comparator, and return the two identifier (path) sequences.  `SortBy.None`
hits `unreachable!()` in the source, modelled as `none`. -/
def sort_pages (pages : List Page) (sort_by : SortBy) :
    Option (List FPath × List FPath) :=
  if sort_by = SortBy.None then none
  else
    some ((sorted_pages_list pages sort_by).map Page.path,
      (cannot_be_sorted pages sort_by).map Page.path)

/-- Displayable string of a page's path (junk default when the path is
not representable; used only under a displayability hypothesis). -/
def dispStr (p : Page) : String := (pathToStr p.path).getD ""

/-- Tie-broken natural-order path comparator; it agrees with the
`SortBy.Path` comparator on pages whose paths are displayable. -/
def pathNatTie (a b : Page) : Ordering :=
  (natural_lexical_cmp (dispStr a) (dispStr b)).then
    (strCmp a.permalink b.permalink)

/-! Concrete pages used in the examples the specification fixes.
They mirror the fixtures of the source's test module: a page built from a
date gets path `content/hello-<date>.md`, a page built from a title gets
path `content/hello-<title>.md`, and so on; permalinks are distinct
renderings of the path. -/

/-- Page fixture carrying only a primary date (and possibly an update
date), as built by `create_page_with_date`. -/
def mkDatePage (d : Nat) (u : Option Nat) (pl : String) : Page :=
  { datetime := some d, updated_datetime := u, title := none,
    weight := none, path := FPath.utf8 ("content/hello-" ++ pl ++ ".md"),
    permalink := pl }

/-- Page fixture carrying only a title, as built by
`create_page_with_title`. -/
def mkTitlePage (t : String) : Page :=
  { datetime := none, updated_datetime := none, title := some t,
    weight := none, path := FPath.utf8 ("content/hello-" ++ t ++ ".md"),
    permalink := "" }

/-- Page fixture carrying only a weight, as built by
`create_page_with_weight`. -/
def mkWeightPage (w : Nat) (pl : String) : Page :=
  { datetime := none, updated_datetime := none, title := none,
    weight := some w, path := FPath.utf8 ("content/hello-" ++ pl ++ ".md"),
    permalink := pl }

/-- Page dated 2017-01-01. -/
def pD2017 : Page := mkDatePage 20170101 none "2017-01-01"

/-- Page dated 2018-01-01. -/
def pD2018 : Page := mkDatePage 20180101 none "2018-01-01"

/-- Page dated 2019-01-01. -/
def pD2019 : Page := mkDatePage 20190101 none "2019-01-01"

/-- Page dated 2017-01-01 with update date 2022-02-01. -/
def pU2017 : Page := mkDatePage 20170101 (some 20220201) "2017-01-01"

/-- Batch of the twelve titles fixed by the specification's natural-order
test. -/
def titlePages : List Page :=
  [mkTitlePage "åland", mkTitlePage "bagel", mkTitlePage "track_3",
   mkTitlePage "microkernel", mkTitlePage "Österrike", mkTitlePage "métro",
   mkTitlePage "BART", mkTitlePage "Underground", mkTitlePage "track_13",
   mkTitlePage "μ-kernel", mkTitlePage "meter", mkTitlePage "track_1"]

/-- Page whose identifier ends in 1. -/
def pid1 : Page :=
  { datetime := none, updated_datetime := none, title := none,
    weight := none, path := FPath.utf8 "1", permalink := "p1" }

/-- Page whose identifier ends in 10. -/
def pid10 : Page :=
  { datetime := none, updated_datetime := none, title := none,
    weight := none, path := FPath.utf8 "10", permalink := "p10" }

/-- Page whose identifier ends in 2. -/
def pid2 : Page :=
  { datetime := none, updated_datetime := none, title := none,
    weight := none, path := FPath.utf8 "2", permalink := "p2" }

/-- Page with the displayable identifier `2`. -/
def cexA : Page :=
  { datetime := none, updated_datetime := none, title := none,
    weight := none, path := FPath.utf8 "2", permalink := "pa" }

/-- Page with the displayable identifier `10`. -/
def cexB : Page :=
  { datetime := none, updated_datetime := none, title := none,
    weight := none, path := FPath.utf8 "10", permalink := "pb" }

/-- Page whose identifier is the byte sequence `0x31 0xFF`, which is not
valid UTF-8, so the identifier is not representable as a displayable
string and `Path::to_str` returns `None` on it. -/
def cexZ : Page :=
  { datetime := none, updated_datetime := none, title := none,
    weight := none, path := FPath.nonUtf8 [49, 255], permalink := "pz" }

/-- Page whose identifier is the non-UTF-8 byte sequence
`0xFF 0x2F 0x61`: not displayable, and containing a separator, so it has
the two components `0xFF` and `0x61`. -/
def cexM : Page :=
  { datetime := none, updated_datetime := none, title := none,
    weight := none, path := FPath.nonUtf8 [255, 47, 97], permalink := "pm" }

/-- Page whose identifier is the non-UTF-8 single-component byte sequence
`0xFF 0x2D 0x61`. -/
def cexN : Page :=
  { datetime := none, updated_datetime := none, title := none,
    weight := none, path := FPath.nonUtf8 [255, 45, 97], permalink := "pn" }

/-- Page whose identifier is the non-UTF-8 byte sequence
`0xFF 0x2F 0x2F 0x61`: a repeated separator, so its components are the
same two components as those of `0xFF 0x2F 0x61`. -/
def cexP : Page :=
  { datetime := none, updated_datetime := none, title := none,
    weight := none, path := FPath.nonUtf8 [255, 47, 47, 97], permalink := "pp" }

/-- Weighted page fixtures. -/
def pW1 : Page := mkWeightPage 1 "w1"

/-- Weighted page of weight 2. -/
def pW2 : Page := mkWeightPage 2 "w2"

/-- Weighted page of weight 3. -/
def pW3 : Page := mkWeightPage 3 "w3"

/-! Comparator theory.  A comparator is well behaved when swapping its
arguments swaps the answer and when the induced non-strict order is
transitive; every strict-total-order fact needed below follows from
these two properties. -/

/-- Swapping the arguments of the comparator swaps the verdict. -/
def CmpSymm (f : α → α → Ordering) : Prop :=
  ∀ a b, f b a = (f a b).swap

/-- The non-strict order induced by the comparator is transitive. -/
def CmpLeTrans (f : α → α → Ordering) : Prop :=
  ∀ a b c, f a b ≠ .gt → f b c ≠ .gt → f a c ≠ .gt

/-- Well-behaved comparator: argument swap symmetry plus transitivity of
the induced non-strict order. -/
def IsCmp (f : α → α → Ordering) : Prop := CmpSymm f ∧ CmpLeTrans f

/-- A comparator verdict of less-than is not greater-than. -/
theorem lt_ne_gt {o : Ordering} (h : o = .lt) : o ≠ .gt := by
  rw [h]; intro hx; cases hx

/-- A comparator verdict of equality is not greater-than. -/
theorem eq_ne_gt {o : Ordering} (h : o = .eq) : o ≠ .gt := by
  rw [h]; intro hx; cases hx

/-- Strict transitivity, derived from the two `IsCmp` properties. -/
theorem IsCmp.lt_trans {f : α → α → Ordering} (h : IsCmp f) {a b c : α}
    (hab : f a b = .lt) (hbc : f b c = .lt) : f a c = .lt := by
  have h1 : f a c ≠ .gt := h.2 a b c (lt_ne_gt hab) (lt_ne_gt hbc)
  have h2 : f a c ≠ .eq := by
    intro he
    have hca : f c a = .eq := by rw [h.1 a c, he]; rfl
    have h3 : f c b ≠ .gt := h.2 c a b (eq_ne_gt hca) (lt_ne_gt hab)
    have h4 : f c b = .gt := by rw [h.1 b c, hbc]; rfl
    exact h3 h4
  cases ho : f a c
  · rfl
  · exact absurd ho h2
  · exact absurd ho h1

/-- Equality on the left composes with strictness on the right. -/
theorem IsCmp.eq_lt_trans {f : α → α → Ordering} (h : IsCmp f) {a b c : α}
    (hab : f a b = .eq) (hbc : f b c = .lt) : f a c = .lt := by
  have h1 : f a c ≠ .gt := h.2 a b c (eq_ne_gt hab) (lt_ne_gt hbc)
  have h2 : f a c ≠ .eq := by
    intro he
    have hca : f c a = .eq := by rw [h.1 a c, he]; rfl
    have hba : f b a = .eq := by rw [h.1 a b, hab]; rfl
    have h3 : f c b ≠ .gt := h.2 c a b (eq_ne_gt hca) (eq_ne_gt hab)
    have h4 : f c b = .gt := by rw [h.1 b c, hbc]; rfl
    exact h3 h4
  cases ho : f a c
  · rfl
  · exact absurd ho h2
  · exact absurd ho h1

/-- Strictness on the left composes with equality on the right. -/
theorem IsCmp.lt_eq_trans {f : α → α → Ordering} (h : IsCmp f) {a b c : α}
    (hab : f a b = .lt) (hbc : f b c = .eq) : f a c = .lt := by
  have h1 : f a c ≠ .gt := h.2 a b c (lt_ne_gt hab) (eq_ne_gt hbc)
  have h2 : f a c ≠ .eq := by
    intro he
    have hca : f c a = .eq := by rw [h.1 a c, he]; rfl
    have hba : f b a ≠ .gt := h.2 b c a (eq_ne_gt hbc) (eq_ne_gt hca)
    exact hba (by rw [h.1 a b, hab]; rfl)
  cases ho : f a c
  · rfl
  · exact absurd ho h2
  · exact absurd ho h1

/-- Transitivity of comparator equality. -/
theorem IsCmp.eq_trans {f : α → α → Ordering} (h : IsCmp f) {a b c : α}
    (hab : f a b = .eq) (hbc : f b c = .eq) : f a c = .eq := by
  have hba : f b a = .eq := by rw [h.1 a b, hab]; rfl
  have hcb : f c b = .eq := by rw [h.1 b c, hbc]; rfl
  have h1 : f a c ≠ .gt := h.2 a b c (eq_ne_gt hab) (eq_ne_gt hbc)
  have h2 : f c a ≠ .gt := h.2 c b a (eq_ne_gt hcb) (eq_ne_gt hba)
  cases ho : f a c
  · exact absurd (by rw [h.1 a c, ho]; rfl) h2
  · rfl
  · exact absurd ho h1

/-- Natural-number comparison is a well-behaved comparator. -/
theorem isCmp_compareNat : IsCmp (fun a b : Nat => compare a b) := by
  constructor
  · intro a b
    show compare b a = (compare a b).swap
    rcases Nat.lt_trichotomy a b with h | h | h
    · rw [Nat.compare_eq_gt.mpr h, Nat.compare_eq_lt.mpr h]; rfl
    · rw [Nat.compare_eq_eq.mpr h.symm, Nat.compare_eq_eq.mpr h]; rfl
    · rw [Nat.compare_eq_lt.mpr h, Nat.compare_eq_gt.mpr h]; rfl
  · intro a b c h1 h2 h3
    have g1 : ¬ b < a := fun hl => h1 (Nat.compare_eq_gt.mpr hl)
    have g2 : ¬ c < b := fun hl => h2 (Nat.compare_eq_gt.mpr hl)
    have g3 : c < a := Nat.compare_eq_gt.mp h3
    omega

/-- Reversing a well-behaved comparator yields a well-behaved comparator
(descending orders). -/
theorem isCmp_flip {f : α → α → Ordering} (h : IsCmp f) :
    IsCmp (fun a b => f b a) :=
  ⟨fun a b => h.1 b a, fun a b c h1 h2 => h.2 c b a h2 h1⟩

/-- Precomposing a well-behaved comparator with a key extraction yields a
well-behaved comparator. -/
theorem isCmp_comp {g : β → β → Ordering} (h : IsCmp g) (k : α → β) :
    IsCmp (fun a b => g (k a) (k b)) :=
  ⟨fun a b => h.1 (k a) (k b), fun a b c h1 h2 => h.2 (k a) (k b) (k c) h1 h2⟩

/-- Well-behavedness transfers along pointwise equality of comparators. -/
theorem isCmp_congr {f g : α → α → Ordering} (he : ∀ a b, f a b = g a b)
    (h : IsCmp g) : IsCmp f := by
  constructor
  · intro a b
    rw [he, he]
    exact h.1 a b
  · intro a b c h1 h2
    rw [he] at h1 h2 ⊢
    exact h.2 a b c h1 h2

/-- Sequencing two well-behaved comparators with `Ordering.then` (the
tie-break pattern) yields a well-behaved comparator. -/
theorem isCmp_then {f g : α → α → Ordering} (hf : IsCmp f) (hg : IsCmp g) :
    IsCmp (fun a b => (f a b).then (g a b)) := by
  constructor
  · intro a b
    show (f b a).then (g b a) = ((f a b).then (g a b)).swap
    rw [hf.1 a b, hg.1 a b]
    cases f a b <;> rfl
  · intro a b c h1c h2c h3c
    have h1 : (f a b).then (g a b) ≠ .gt := h1c
    have h2 : (f b c).then (g b c) ≠ .gt := h2c
    have h3 : (f a c).then (g a c) = .gt := h3c
    cases hab : f a b with
    | gt => rw [hab] at h1; exact h1 rfl
    | lt =>
      cases hbc : f b c with
      | gt => rw [hbc] at h2; exact h2 rfl
      | lt => rw [hf.lt_trans hab hbc] at h3; simp [Ordering.then] at h3
      | eq => rw [hf.lt_eq_trans hab hbc] at h3; simp [Ordering.then] at h3
    | eq =>
      cases hbc : f b c with
      | gt => rw [hbc] at h2; exact h2 rfl
      | lt => rw [hf.eq_lt_trans hab hbc] at h3; simp [Ordering.then] at h3
      | eq =>
        rw [hf.eq_trans hab hbc] at h3
        rw [hab] at h1
        rw [hbc] at h2
        exact hg.2 a b c h1 h2 h3

/-- Unfolding of list comparison on two non-empty lists: the head verdict
with the tail comparison as tie-break. -/
theorem listCmp_cons (f : α → α → Ordering) (a b : α) (as bs : List α) :
    listCmp f (a :: as) (b :: bs) = (f a b).then (listCmp f as bs) := by
  cases h : f a b <;> simp [listCmp, h, Ordering.then]

/-- Lexicographic comparison of lists is well behaved whenever the
element comparator is. -/
theorem isCmp_listCmp {f : α → α → Ordering} (hf : IsCmp f) :
    IsCmp (listCmp f) := by
  constructor
  · intro as bs
    induction as generalizing bs with
    | nil => cases bs <;> rfl
    | cons a as ih =>
      cases bs with
      | nil => rfl
      | cons b bs =>
        show listCmp f (b :: bs) (a :: as) = (listCmp f (a :: as) (b :: bs)).swap
        rw [listCmp_cons, listCmp_cons, hf.1 a b, ih bs]
        cases f a b <;> rfl
  · intro as bs cs
    induction as generalizing bs cs with
    | nil =>
      intro h1 h2 h3
      cases cs with
      | nil => cases h3
      | cons c cs => cases h3
    | cons a as ih =>
      intro h1 h2 h3
      cases bs with
      | nil => exact h1 rfl
      | cons b bs =>
        cases cs with
        | nil => exact h2 rfl
        | cons c cs =>
          rw [listCmp_cons] at h1 h2 h3
          cases hab : f a b with
          | gt => rw [hab] at h1; exact h1 rfl
          | lt =>
            cases hbc : f b c with
            | gt => rw [hbc] at h2; exact h2 rfl
            | lt => rw [hf.lt_trans hab hbc] at h3; simp [Ordering.then] at h3
            | eq => rw [hf.lt_eq_trans hab hbc] at h3; simp [Ordering.then] at h3
          | eq =>
            cases hbc : f b c with
            | gt => rw [hbc] at h2; exact h2 rfl
            | lt => rw [hf.eq_lt_trans hab hbc] at h3; simp [Ordering.then] at h3
            | eq =>
              rw [hf.eq_trans hab hbc] at h3
              rw [hab] at h1
              rw [hbc] at h2
              exact ih bs cs h1 h2 h3

/-- The natural-order token comparator is well behaved: digit runs sit
between the characters below the digit zone and those above it, so the
mixed cases cannot break transitivity. -/
theorem isCmp_lexKeyCmp : IsCmp lexKeyCmp := by
  constructor
  · intro k1 k2
    cases k1 with
    | num v =>
      cases k2 with
      | num w => exact isCmp_compareNat.1 v w
      | chr c =>
        show lexKeyCmp (.chr c) (.num v) = (lexKeyCmp (.num v) (.chr c)).swap
        simp only [lexKeyCmp]
        by_cases hc : c < 48 <;> simp [hc, Ordering.swap]
    | chr c =>
      cases k2 with
      | num w =>
        show lexKeyCmp (.num w) (.chr c) = (lexKeyCmp (.chr c) (.num w)).swap
        simp only [lexKeyCmp]
        by_cases hc : c < 48 <;> simp [hc, Ordering.swap]
      | chr d => exact isCmp_compareNat.1 c d
  · intro k1 k2 k3 h1 h2
    have key : ∀ x y : Nat, compare x y ≠ .gt → ¬ y < x :=
      fun x y h hl => h (Nat.compare_eq_gt.mpr hl)
    cases k1 with
    | num v =>
      cases k2 with
      | num w =>
        cases k3 with
        | num x =>
          simp only [lexKeyCmp] at h1 h2 ⊢
          have a1 := key v w h1
          have a2 := key w x h2
          intro hg
          exact absurd (Nat.compare_eq_gt.mp hg) (by omega)
        | chr d =>
          simp only [lexKeyCmp] at h2 ⊢
          exact h2
      | chr d =>
        cases k3 with
        | num w =>
          simp only [lexKeyCmp] at h1 h2
          by_cases hd : d < 48
          · simp [hd] at h1
          · simp [hd] at h2
        | chr e =>
          simp only [lexKeyCmp] at h1 h2 ⊢
          by_cases hd : d < 48
          · simp [hd] at h1
          · have a2 := key d e h2
            have he : ¬ e < 48 := by omega
            simp [he]
    | chr c =>
      cases k2 with
      | num v =>
        cases k3 with
        | num w =>
          simp only [lexKeyCmp] at h1 ⊢
          by_cases hc : c < 48
          · simp [hc]
          · simp [hc] at h1
        | chr e =>
          simp only [lexKeyCmp] at h1 h2 ⊢
          by_cases hc : c < 48
          · by_cases he : e < 48
            · simp [he] at h2
            · intro hg
              exact absurd (Nat.compare_eq_gt.mp hg) (by omega)
          · simp [hc] at h1
      | chr d =>
        cases k3 with
        | num w =>
          simp only [lexKeyCmp] at h1 h2 ⊢
          have a1 := key c d h1
          by_cases hd : d < 48
          · have hc : c < 48 := by omega
            simp [hc]
          · simp [hd] at h2
        | chr e =>
          simp only [lexKeyCmp] at h1 h2 ⊢
          have a1 := key c d h1
          have a2 := key d e h2
          intro hg
          exact absurd (Nat.compare_eq_gt.mp hg) (by omega)

/-- Character comparison by code point is well behaved. -/
theorem isCmp_charCmp : IsCmp charCmp :=
  isCmp_comp isCmp_compareNat Char.toNat

/-- String comparison (byte/code-point lexicographic) is well behaved. -/
theorem isCmp_strCmp : IsCmp strCmp :=
  isCmp_comp (isCmp_listCmp isCmp_charCmp) String.data

/-- Raw byte-sequence comparison is well behaved. -/
theorem isCmp_bytesCmp : IsCmp bytesCmp :=
  isCmp_listCmp isCmp_compareNat

/-- The natural-order string comparator is well behaved. -/
theorem isCmp_natural : IsCmp natural_lexical_cmp := by
  have h := isCmp_comp (isCmp_listCmp isCmp_lexKeyCmp)
    (fun s : String => lexTokens (s.data.map (fun c => translitCode c.toNat)))
  exact isCmp_congr (fun a b => rfl) h

/-- The component comparator is the comparison of constructor ranks with
the byte comparison as tie-break. -/
theorem pathCompCmp_eq_ranked (k1 k2 : PathComp) :
    pathCompCmp k1 k2 =
      (compare (compRank k1) (compRank k2)).then
        (bytesCmp (compBytes k1) (compBytes k2)) := by
  cases k1 <;> cases k2 <;> rfl

/-- The path-component comparator is well behaved. -/
theorem isCmp_pathCompCmp : IsCmp pathCompCmp := by
  have h := isCmp_then (isCmp_comp isCmp_compareNat compRank)
    (isCmp_comp isCmp_bytesCmp compBytes)
  exact isCmp_congr pathCompCmp_eq_ranked h

/-- Component-wise path comparison is well behaved. -/
theorem isCmp_pathBufCmp : IsCmp pathBufCmp := by
  have h := isCmp_comp (isCmp_listCmp isCmp_pathCompCmp)
    (fun p : FPath => pathComponents (rawBytes p))
  exact isCmp_congr (fun a b => rfl) h

/-- A byte sequence without separators is a single chunk. -/
theorem splitSep_no_sep : ∀ {bs : List Nat}, ¬ 47 ∈ bs → splitSep bs = [bs] := by
  intro bs
  induction bs with
  | nil => intro _; rfl
  | cons n rest ih =>
    intro h
    have hn : n ≠ 47 := fun he => h (he ▸ List.mem_cons_self n rest)
    have hr : ¬ 47 ∈ rest := fun hm => h (List.mem_cons_of_mem n hm)
    show splitSep (n :: rest) = [n :: rest]
    simp only [splitSep]
    rw [if_neg hn, ih hr]

/-- A nonempty, separator-free byte sequence other than `.` and `..` is a
single normal component. -/
theorem pathComponents_single {bs : List Nat} (hne : bs ≠ [])
    (hsep : ¬ 47 ∈ bs) (hdot : bs ≠ [46]) (hdots : bs ≠ [46, 46]) :
    pathComponents bs = [PathComp.normal bs] := by
  have hpieces : pathPieces bs = [bs] := by
    rw [pathPieces, splitSep_no_sep hsep]
    cases bs with
    | nil => exact absurd rfl hne
    | cons n rest => rfl
  have hhead : ¬ bs.head? = some 47 := by
    cases bs with
    | nil => intro h; cases h
    | cons n rest =>
      intro h
      injection h with h
      exact hsep (h ▸ List.mem_cons_self n rest)
  have hcur : ¬ (bs = [46] ∨ bs.take 2 = [46, 47]) := by
    intro hor
    cases hor with
    | inl h => exact hdot h
    | inr h =>
      cases bs with
      | nil => cases h
      | cons n rest =>
        cases rest with
        | nil => simp at h
        | cons m rest2 =>
          have hm : m = 47 := by
            simp only [List.take] at h
            injection h with h1 h2
            injection h2 with h2 _
          exact hsep (hm ▸ List.mem_cons_of_mem n (List.mem_cons_self m rest2))
  rw [pathComponents, if_neg hhead, if_neg hcur, hpieces]
  simp [bodyComps, List.filterMap_cons, hdot, hdots]

/-- Sequencing with an equality tie-break is the identity. -/
theorem then_eq_right (o : Ordering) : o.then .eq = o := by
  cases o <;> rfl

/-- List comparison only reports equality on equal lists, provided the
element comparator does. -/
theorem listCmp_eq_imp {f : α → α → Ordering}
    (hf : ∀ x y, f x y = .eq → x = y) :
    ∀ {as bs : List α}, listCmp f as bs = .eq → as = bs := by
  intro as
  induction as with
  | nil => intro bs h; cases bs with
    | nil => rfl
    | cons b bs => cases h
  | cons a as ih =>
    intro bs h
    cases bs with
    | nil => cases h
    | cons b bs =>
      rw [listCmp_cons] at h
      cases hab : f a b with
      | lt => rw [hab] at h; cases h
      | gt => rw [hab] at h; cases h
      | eq =>
        rw [hab] at h
        have h2 : listCmp f as bs = .eq := h
        rw [hf a b hab, ih h2]

/-- String comparison only reports equality on equal strings. -/
theorem strCmp_eq_imp {a b : String} (h : strCmp a b = .eq) : a = b := by
  apply String.ext
  apply listCmp_eq_imp (f := charCmp) _ h
  intro x y hxy
  have : x.toNat = y.toNat := Nat.compare_eq_eq.mp hxy
  exact Char.ext (UInt32.toNat.inj this)

/-- The tie-broken comparator is the per-criterion comparator sequenced
with the permalink comparison. -/
theorem pageCmpTie_eq_then (c : SortBy) (a b : Page) :
    pageCmpTie c a b = (pageCmp c a b).then (strCmp a.permalink b.permalink) := by
  cases h : pageCmp c a b <;> simp [pageCmpTie, h, Ordering.then]

/-- The per-criterion comparator answers symmetrically on swapped
arguments, for every criterion including `SortBy.Path`. -/
theorem cmpSymm_pageCmp (c : SortBy) : CmpSymm (pageCmp c) := by
  cases c with
  | Date => exact fun a b => isCmp_compareNat.1 (unwrapN b.datetime) (unwrapN a.datetime)
  | UpdateDate =>
    exact fun a b =>
      isCmp_compareNat.1 (unwrapN (maxOpt b.datetime b.updated_datetime))
        (unwrapN (maxOpt a.datetime a.updated_datetime))
  | Title => exact fun a b => isCmp_natural.1 (unwrapS a.title) (unwrapS b.title)
  | TitleBytes => exact fun a b => isCmp_strCmp.1 (unwrapS a.title) (unwrapS b.title)
  | Weight => exact fun a b => isCmp_compareNat.1 (unwrapN a.weight) (unwrapN b.weight)
  | None => exact fun a b => rfl
  | Path =>
    intro a b
    show (compare_by_path_lexically b.path a.path).getD
        (pathBufCmp b.path a.path) =
      ((compare_by_path_lexically a.path b.path).getD
        (pathBufCmp a.path b.path)).swap
    cases ha : pathToStr a.path with
    | none =>
      have e1 : compare_by_path_lexically a.path b.path = none := by
        simp [compare_by_path_lexically, ha]
      have e2 : compare_by_path_lexically b.path a.path = none := by
        cases hb : pathToStr b.path <;> simp [compare_by_path_lexically, ha, hb]
      rw [e1, e2]
      exact isCmp_pathBufCmp.1 a.path b.path
    | some sa =>
      cases hb : pathToStr b.path with
      | none =>
        have e1 : compare_by_path_lexically a.path b.path = none := by
          simp [compare_by_path_lexically, ha, hb]
        have e2 : compare_by_path_lexically b.path a.path = none := by
          simp [compare_by_path_lexically, ha, hb]
        rw [e1, e2]
        exact isCmp_pathBufCmp.1 a.path b.path
      | some sb =>
        have e1 : compare_by_path_lexically a.path b.path =
            some (natural_lexical_cmp sa sb) := by
          simp [compare_by_path_lexically, ha, hb]
        have e2 : compare_by_path_lexically b.path a.path =
            some (natural_lexical_cmp sb sa) := by
          simp [compare_by_path_lexically, ha, hb]
        rw [e1, e2]
        exact isCmp_natural.1 sa sb

/-- For every criterion other than `SortBy.Path`, the per-criterion
comparator is well behaved on all pages. -/
theorem isCmp_pageCmp_ne_path (c : SortBy) (hc : c ≠ SortBy.Path) :
    IsCmp (pageCmp c) := by
  cases c with
  | Date =>
    have h := isCmp_flip (isCmp_comp isCmp_compareNat
      (fun p : Page => unwrapN p.datetime))
    exact isCmp_congr (fun a b => rfl) h
  | UpdateDate =>
    have h := isCmp_flip (isCmp_comp isCmp_compareNat
      (fun p : Page => unwrapN (maxOpt p.datetime p.updated_datetime)))
    exact isCmp_congr (fun a b => rfl) h
  | Title =>
    have h := isCmp_comp isCmp_natural (fun p : Page => unwrapS p.title)
    exact isCmp_congr (fun a b => rfl) h
  | TitleBytes =>
    have h := isCmp_comp isCmp_strCmp (fun p : Page => unwrapS p.title)
    exact isCmp_congr (fun a b => rfl) h
  | Weight =>
    have h := isCmp_comp isCmp_compareNat (fun p : Page => unwrapN p.weight)
    exact isCmp_congr (fun a b => rfl) h
  | Path => exact absurd rfl hc
  | None =>
    have h : IsCmp (fun _ _ : Page => Ordering.eq) :=
      ⟨fun _ _ => rfl, fun _ _ _ _ _ h3 => nomatch h3⟩
    exact isCmp_congr (fun a b => rfl) h

/-- The tie-broken comparator answers symmetrically on swapped arguments,
for every criterion including `SortBy.Path`. -/
theorem cmpSymm_pageCmpTie (c : SortBy) : CmpSymm (pageCmpTie c) := by
  intro a b
  rw [pageCmpTie_eq_then, pageCmpTie_eq_then]
  rw [cmpSymm_pageCmp c a b]
  rw [isCmp_strCmp.1 a.permalink b.permalink]
  cases pageCmp c a b <;> rfl

/-- For every criterion other than `SortBy.Path`, the tie-broken
comparator is well behaved on all pages. -/
theorem isCmp_pageCmpTie_ne_path (c : SortBy) (hc : c ≠ SortBy.Path) :
    IsCmp (pageCmpTie c) := by
  have h := isCmp_then (isCmp_pageCmp_ne_path c hc)
    (isCmp_comp isCmp_strCmp Page.permalink)
  exact isCmp_congr (pageCmpTie_eq_then c) h

/-- The tie-broken natural-order path comparator is well behaved. -/
theorem isCmp_pathNatTie : IsCmp pathNatTie := by
  have h := isCmp_then (isCmp_comp isCmp_natural dispStr)
    (isCmp_comp isCmp_strCmp Page.permalink)
  exact isCmp_congr (fun a b => rfl) h

/-- On pages with displayable paths, the `SortBy.Path` comparator is the
natural-order comparison of the two path strings. -/
theorem pageCmp_path_disp {a b : Page} {sa sb : String}
    (ha : pathToStr a.path = some sa) (hb : pathToStr b.path = some sb) :
    pageCmp SortBy.Path a b = natural_lexical_cmp sa sb := by
  show (compare_by_path_lexically a.path b.path).getD
      (pathBufCmp a.path b.path) = _
  simp [compare_by_path_lexically, ha, hb]

/-- When either path is not displayable, the `SortBy.Path` comparator
falls back to component-wise path comparison of the raw representations,
as `PathBuf::cmp` does. -/
theorem pageCmp_path_raw {a b : Page}
    (h : pathToStr a.path = none ∨ pathToStr b.path = none) :
    pageCmp SortBy.Path a b = pathBufCmp a.path b.path := by
  show (compare_by_path_lexically a.path b.path).getD
      (pathBufCmp a.path b.path) = _
  cases h with
  | inl ha => simp [compare_by_path_lexically, ha]
  | inr hb =>
    cases ha : pathToStr a.path <;> simp [compare_by_path_lexically, ha, hb]

/-- On pages with displayable paths, the tie-broken `SortBy.Path`
comparator agrees with the tie-broken natural-order path comparator. -/
theorem pageCmpTie_path_disp {a b : Page} {sa sb : String}
    (ha : pathToStr a.path = some sa) (hb : pathToStr b.path = some sb) :
    pageCmpTie SortBy.Path a b = pathNatTie a b := by
  rw [pageCmpTie_eq_then, pageCmp_path_disp ha hb]
  have e1 : dispStr a = sa := by simp [dispStr, ha]
  have e2 : dispStr b = sb := by simp [dispStr, hb]
  rw [pathNatTie, e1, e2]

/-- A tie-broken comparison can only report equality when the two
permalinks coincide. -/
theorem pageCmpTie_eq_imp_permalink {c : SortBy} {a b : Page}
    (h : pageCmpTie c a b = .eq) : a.permalink = b.permalink := by
  rw [pageCmpTie_eq_then] at h
  cases hp : pageCmp c a b with
  | lt => rw [hp] at h; cases h
  | gt => rw [hp] at h; cases h
  | eq =>
    rw [hp] at h
    exact strCmp_eq_imp h

/-- The orderable bucket is the eligibility filter over the input. -/
theorem can_eq_filter (ps : List Page) (c : SortBy) :
    can_be_sorted ps c = ps.filter (eligible c) := by
  rw [can_be_sorted, List.partition_eq_filter_filter]

/-- The rejected bucket is the complementary filter over the input. -/
theorem cannot_eq_filter (ps : List Page) (c : SortBy) :
    cannot_be_sorted ps c = ps.filter (fun p => !(eligible c p)) := by
  rw [cannot_be_sorted, List.partition_eq_filter_filter]
  rfl

/-- Membership in the orderable bucket means membership in the input
together with eligibility. -/
theorem mem_can_be_sorted {ps : List Page} {c : SortBy} {p : Page} :
    p ∈ can_be_sorted ps c ↔ p ∈ ps ∧ eligible c p = true := by
  rw [can_eq_filter]
  exact List.mem_filter

/-- The sorted list is a permutation of the orderable bucket. -/
theorem perm_sorted_can (ps : List Page) (c : SortBy) :
    (sorted_pages_list ps c).Perm (can_be_sorted ps c) :=
  List.perm_insertionSort _ _

/-- The two buckets, sorted bucket first, form a permutation of the
input. -/
theorem perm_output (ps : List Page) (c : SortBy) :
    (sorted_pages_list ps c ++ cannot_be_sorted ps c).Perm ps := by
  have h1 : (sorted_pages_list ps c ++ cannot_be_sorted ps c).Perm
      (can_be_sorted ps c ++ cannot_be_sorted ps c) :=
    (perm_sorted_can ps c).append (List.Perm.refl _)
  have h2 : (can_be_sorted ps c ++ cannot_be_sorted ps c).Perm ps := by
    rw [can_eq_filter, cannot_eq_filter]
    exact List.filter_append_perm _ _
  exact h1.trans h2

/-- Two sorted lists that are permutations of each other are equal, as
soon as the order is antisymmetric on the elements involved.  This is
what makes the sorted output independent of the sorting algorithm and of
its parallel execution schedule. -/
theorem sorted_perm_eq {α : Type} {le : α → α → Prop} :
    ∀ {l1 l2 : List α}, l1.Perm l2 → l1.Pairwise le → l2.Pairwise le →
      (∀ a ∈ l1, ∀ b ∈ l1, le a b → le b a → a = b) → l1 = l2 := by
  intro l1
  induction l1 with
  | nil =>
    intro l2 hp _ _ _
    exact hp.nil_eq
  | cons a t1 ih =>
    intro l2 hp hs1 hs2 hanti
    cases l2 with
    | nil =>
      have h := hp.symm.nil_eq
      exact absurd h (by simp)
    | cons b t2 =>
      by_cases hab : a = b
      · subst hab
        have hp' := hp.cons_inv
        have h1 := List.pairwise_cons.mp hs1
        have h2 := List.pairwise_cons.mp hs2
        have ht : t1 = t2 := ih hp' h1.2 h2.2
          (fun x hx y hy => hanti x (List.mem_cons_of_mem _ hx)
            y (List.mem_cons_of_mem _ hy))
        rw [ht]
      · have ha2 : a ∈ b :: t2 := hp.mem_iff.mp (List.mem_cons_self a t1)
        have hb1 : b ∈ a :: t1 := hp.symm.mem_iff.mp (List.mem_cons_self b t2)
        have hb1t : b ∈ t1 := by
          cases List.mem_cons.mp hb1 with
          | inl h => exact absurd h.symm hab
          | inr h => exact h
        have ha2t : a ∈ t2 := by
          cases List.mem_cons.mp ha2 with
          | inl h => exact absurd h hab
          | inr h => exact h
        have hle_ab : le a b := (List.pairwise_cons.mp hs1).1 b hb1t
        have hle_ba : le b a := (List.pairwise_cons.mp hs2).1 a ha2t
        exact absurd
          (hanti a (List.mem_cons_self a t1) b hb1 hle_ab hle_ba) hab

/-- The non-strict page order is total, for every criterion. -/
theorem pageLe_total (c : SortBy) (a b : Page) :
    pageLe c a b ∨ pageLe c b a := by
  cases h : pageCmpTie c a b with
  | lt => exact Or.inl (lt_ne_gt h)
  | eq => exact Or.inl (eq_ne_gt h)
  | gt =>
    refine Or.inr ?_
    have hs : pageCmpTie c b a = .lt := by rw [cmpSymm_pageCmpTie c a b, h]; rfl
    exact lt_ne_gt hs

/-- Mutually comparable pages are tied, hence share a permalink. -/
theorem pageLe_antisymm_permalink {c : SortBy} {a b : Page}
    (h1 : pageLe c a b) (h2 : pageLe c b a) : a.permalink = b.permalink := by
  cases h : pageCmpTie c a b with
  | gt => exact absurd h h1
  | eq => exact pageCmpTie_eq_imp_permalink h
  | lt =>
    have hs : pageCmpTie c b a = .gt := by rw [cmpSymm_pageCmpTie c a b, h]; rfl
    exact absurd hs h2

/-- The sorted bucket produced for a criterion other than
`SortBy.Path` is sorted under the tie-broken comparator. -/
theorem sorted_sorted_pages_list (ps : List Page) (c : SortBy)
    (hc : c ≠ SortBy.Path) :
    List.Pairwise (pageLe c) (sorted_pages_list ps c) := by
  have hcmp := isCmp_pageCmpTie_ne_path c hc
  haveI : IsTotal Page (pageLe c) := ⟨pageLe_total c⟩
  haveI : IsTrans Page (pageLe c) := ⟨fun a b d h1 h2 => hcmp.2 a b d h1 h2⟩
  exact List.sorted_insertionSort (pageLe c) (can_be_sorted ps c)

/-- Unwrapping the maximum of two optional timestamps is the maximum of
the two unwrapped timestamps, with an absent value contributing the least
possible one. -/
theorem unwrapN_maxOpt (x y : Option Nat) :
    unwrapN (maxOpt x y) = max (unwrapN x) (unwrapN y) := by
  cases x with
  | none =>
    cases y with
    | none => rfl
    | some b =>
      show unwrapN (if cmpOptNat none (some b) = .gt then none else some b) = _
      simp [cmpOptNat, unwrapN]
  | some a =>
    cases y with
    | none =>
      show unwrapN (if cmpOptNat (some a) none = .gt then some a else none) = _
      simp [cmpOptNat, unwrapN]
    | some b =>
      show unwrapN (if cmpOptNat (some a) (some b) = .gt then some a else some b) = _
      simp only [cmpOptNat, unwrapN]
      by_cases h : compare a b = Ordering.gt
      · have hb : b < a := Nat.compare_eq_gt.mp h
        simp [h]
        omega
      · have hb : ¬ b < a := fun hl => h (Nat.compare_eq_gt.mpr hl)
        simp [h]
        omega

/-- Membership of a page's path in the sorted output is equivalent to the
page's eligibility, on batches with distinct identifiers. -/
theorem path_mem_sorted_iff {ps : List Page} {c : SortBy} {p : Page}
    (hnd : (ps.map Page.path).Nodup) (hp : p ∈ ps) :
    p.path ∈ (sorted_pages_list ps c).map Page.path ↔ eligible c p = true := by
  constructor
  · intro hmem
    obtain ⟨q, hq, hqp⟩ := List.mem_map.mp hmem
    have hq' : q ∈ can_be_sorted ps c := (perm_sorted_can ps c).mem_iff.mp hq
    obtain ⟨hqin, helig⟩ := mem_can_be_sorted.mp hq'
    have hqe : q = p := List.inj_on_of_nodup_map hnd hqin hp hqp
    rw [hqe] at helig
    exact helig
  · intro helig
    have hq : p ∈ can_be_sorted ps c := mem_can_be_sorted.mpr ⟨hp, helig⟩
    have hq' : p ∈ sorted_pages_list ps c := (perm_sorted_can ps c).mem_iff.mpr hq
    exact List.mem_map.mpr ⟨p, hq', rfl⟩

/-- C1: for every finite input list of records and every criterion other
than `NoOrder` — with no assumption on `rank_tiebreak` (permalink)
uniqueness — the two output sequences of `sort_pages` together form a
permutation of the input identifiers: the lengths add up to the input
length, and on batches with distinct identifiers the two output
identifier sets are disjoint, their union equals the input identifier
set, and no identifier is duplicated or dropped. -/
theorem partition_completeness :
    ∀ (ps : List Page) (c : SortBy) (s u : List FPath),
      c ≠ SortBy.None → sort_pages ps c = some (s, u) →
      (s ++ u).Perm (ps.map Page.path)
      ∧ s.length + u.length = ps.length
      ∧ ((ps.map Page.path).Nodup →
          (∀ x ∈ s, x ∉ u)
          ∧ (∀ x : FPath, x ∈ ps.map Page.path ↔ (x ∈ s ∨ x ∈ u))
          ∧ (s ++ u).Nodup) := by
  intro ps c s u hc hs
  rw [sort_pages, if_neg hc] at hs
  injection hs with hs
  rw [Prod.mk.injEq] at hs
  obtain ⟨hs1, hs2⟩ := hs
  subst hs1
  subst hs2
  have hperm : ((sorted_pages_list ps c).map Page.path ++
      (cannot_be_sorted ps c).map Page.path).Perm (ps.map Page.path) := by
    rw [← List.map_append]
    exact (perm_output ps c).map Page.path
  refine ⟨hperm, ?_, ?_⟩
  · have h2 := hperm.length_eq
    rw [List.length_append] at h2
    simp only [List.length_map] at h2 ⊢
    exact h2
  · intro hnd
    have hnodup := hperm.symm.nodup hnd
    obtain ⟨hn1, hn2, hdisj⟩ := List.nodup_append.mp hnodup
    refine ⟨?_, ?_, hnodup⟩
    · intro x hx hxu
      exact hdisj hx hxu
    · intro x
      exact hperm.symm.mem_iff.trans List.mem_append

/-- Witness for C1 at the mixed-eligibility batch of the specification:
one dated record and one weighted record under `ByPrimaryDate`. -/
theorem partition_completeness_witness :
    ([pD2018.path] ++ [pW1.path]).Perm ([pD2018, pW1].map Page.path)
    ∧ [pD2018.path].length + [pW1.path].length = ([pD2018, pW1] : List Page).length
    ∧ (([pD2018, pW1].map Page.path).Nodup →
        (∀ x ∈ [pD2018.path], x ∉ [pW1.path])
        ∧ (∀ x : FPath, x ∈ [pD2018, pW1].map Page.path ↔
            (x ∈ [pD2018.path] ∨ x ∈ [pW1.path]))
        ∧ ([pD2018.path] ++ [pW1.path]).Nodup) :=
  partition_completeness [pD2018, pW1] SortBy.Date [pD2018.path] [pW1.path]
    (by decide) (by decide)

/-- C3: on batches with distinct identifiers, a record's identifier lands
in the sorted output exactly when the attribute its criterion needs is
present: `primary_datetime` for `ByPrimaryDate`; `primary_datetime` or
`secondary_datetime` for `ByMostRecentDate`; `title` for `ByTitleNatural`
and `ByTitleRaw`; `weight` for `ByWeight`; and every record is eligible
under `ByIdentifierNatural`. -/
theorem eligibility_partition :
    ∀ (ps : List Page) (c : SortBy) (s u : List FPath),
      c ≠ SortBy.None → sort_pages ps c = some (s, u) →
      (ps.map Page.path).Nodup →
      ∀ p ∈ ps,
        (p.path ∈ s ↔
          (match c with
            | SortBy.Date => p.datetime.isSome
            | SortBy.UpdateDate => p.datetime.isSome || p.updated_datetime.isSome
            | SortBy.Title => p.title.isSome
            | SortBy.TitleBytes => p.title.isSome
            | SortBy.Weight => p.weight.isSome
            | SortBy.Path => true
            | SortBy.None => true) = true) := by
  intro ps c s u hc hs hnd p hp
  rw [sort_pages, if_neg hc] at hs
  injection hs with hs
  rw [Prod.mk.injEq] at hs
  obtain ⟨hs1, hs2⟩ := hs
  subst hs1
  cases c with
  | Date => exact path_mem_sorted_iff hnd hp
  | UpdateDate => exact path_mem_sorted_iff hnd hp
  | Title => exact path_mem_sorted_iff hnd hp
  | TitleBytes => exact path_mem_sorted_iff hnd hp
  | Weight => exact path_mem_sorted_iff hnd hp
  | Path => exact path_mem_sorted_iff hnd hp
  | None => exact absurd rfl hc

/-- Witness for C3 at the mixed-eligibility batch: the dated record's
identifier is in the sorted output precisely because its date is
present. -/
theorem eligibility_partition_witness :
    pD2018.path ∈ [pD2018.path] ↔ pD2018.datetime.isSome = true :=
  eligibility_partition [pD2018, pW1] SortBy.Date [pD2018.path] [pW1.path]
    (by decide) (by decide) (by decide) pD2018 (by decide)

/-- C9: for every input whose criterion is not `NoOrder`, `sort_pages`
never panics: it returns a value (the `unreachable` arms for `NoOrder`
are not evaluated), and every record that reaches the comparator has the
attribute its criterion unwraps — the datetime, the maximum of the two
datetimes, the title, or the weight — so every `unwrap` is applied to a
present value. -/
theorem no_panic :
    ∀ (ps : List Page) (c : SortBy), c ≠ SortBy.None →
      (sort_pages ps c).isSome = true
      ∧ ∀ p ∈ can_be_sorted ps c,
          (match c with
            | SortBy.Date => p.datetime.isSome
            | SortBy.UpdateDate => (maxOpt p.datetime p.updated_datetime).isSome
            | SortBy.Title => p.title.isSome
            | SortBy.TitleBytes => p.title.isSome
            | SortBy.Weight => p.weight.isSome
            | SortBy.Path => true
            | SortBy.None => true) = true := by
  intro ps c hc
  constructor
  · rw [sort_pages, if_neg hc]
    rfl
  · intro p hp
    have helig := (mem_can_be_sorted.mp hp).2
    cases c with
    | Date => exact helig
    | UpdateDate =>
      cases hx : p.datetime with
      | some a =>
        cases hy : p.updated_datetime with
        | some b =>
          simp only [maxOpt, cmpOptNat]
          split <;> rfl
        | none => simp [maxOpt, cmpOptNat]
      | none =>
        cases hy : p.updated_datetime with
        | some b => simp [maxOpt, cmpOptNat]
        | none => simp [eligible, hx, hy] at helig
    | Title => exact helig
    | TitleBytes => exact helig
    | Weight => exact helig
    | Path => rfl
    | None => exact absurd rfl hc

/-- Witness for C9 at a record carrying both datetimes under
`ByMostRecentDate`. -/
theorem no_panic_witness :
    (sort_pages [pU2017] SortBy.UpdateDate).isSome = true
    ∧ ∀ p ∈ can_be_sorted [pU2017] SortBy.UpdateDate,
        (maxOpt p.datetime p.updated_datetime).isSome = true :=
  no_panic [pU2017] SortBy.UpdateDate (by decide)

/-- C4: the sorted sequence is a pure, deterministic function of the
batch and the criterion.  With unique `rank_tiebreak` (permalink) values
the tie-broken comparator is antisymmetric on the batch, so any two
sorted permutations of the orderable records coincide — the result is
therefore independent of the sorting algorithm, of its parallel schedule,
and of the worker count. -/
theorem sort_deterministic :
    ∀ (ps : List Page) (c : SortBy) (l1 l2 : List Page),
      c ≠ SortBy.None →
      (ps.map Page.permalink).Nodup →
      l1.Perm (can_be_sorted ps c) → l2.Perm (can_be_sorted ps c) →
      List.Pairwise (pageLe c) l1 → List.Pairwise (pageLe c) l2 →
      l1 = l2 := by
  intro ps c l1 l2 _ hnd h1 h2 hs1 hs2
  apply sorted_perm_eq (h1.trans h2.symm) hs1 hs2
  intro a ha b hb hab hba
  have hpa : a ∈ ps := (mem_can_be_sorted.mp (h1.mem_iff.mp ha)).1
  have hpb : b ∈ ps := (mem_can_be_sorted.mp (h1.mem_iff.mp hb)).1
  have hpl : a.permalink = b.permalink := pageLe_antisymm_permalink hab hba
  exact List.inj_on_of_nodup_map hnd hpa hpb hpl

/-- Witness for C4: two runs over the weighted batch agree. -/
theorem sort_deterministic_witness : ([pW1, pW2] : List Page) = [pW1, pW2] :=
  sort_deterministic [pW1, pW2] SortBy.Weight [pW1, pW2] [pW1, pW2]
    (by decide) (by decide) (by decide) (by decide) (by decide) (by decide)

/-- C5: under `ByMostRecentDate` the sort key of a record is the maximum
of its primary and secondary datetimes, an absent one contributing the
least possible value; the comparator orders descending by that key, so
the sorted bucket is weakly decreasing in it; and the specification's
example batch — 2017 updated 2022, 2018, and 2019 — comes out as
[2017(updated 2022), 2019, 2018]. -/
theorem update_date_most_recent :
    (∀ x y : Option Nat, unwrapN (maxOpt x y) = max (unwrapN x) (unwrapN y))
    ∧ (∀ a b : Page, pageCmp SortBy.UpdateDate a b =
        compare (max (unwrapN b.datetime) (unwrapN b.updated_datetime))
          (max (unwrapN a.datetime) (unwrapN a.updated_datetime)))
    ∧ (∀ ps : List Page,
        List.Pairwise (fun a b =>
          max (unwrapN b.datetime) (unwrapN b.updated_datetime) ≤
            max (unwrapN a.datetime) (unwrapN a.updated_datetime))
          (sorted_pages_list ps SortBy.UpdateDate))
    ∧ sort_pages [pD2018, pU2017, pD2019] SortBy.UpdateDate =
        some ([pU2017.path, pD2019.path, pD2018.path], []) := by
  refine ⟨unwrapN_maxOpt, ?_, ?_, by decide⟩
  · intro a b
    show compare (unwrapN (maxOpt b.datetime b.updated_datetime))
        (unwrapN (maxOpt a.datetime a.updated_datetime)) = _
    rw [unwrapN_maxOpt, unwrapN_maxOpt]
  · intro ps
    have hs := sorted_sorted_pages_list ps SortBy.UpdateDate (by intro h; cases h)
    refine List.Pairwise.imp ?_ hs
    intro a b hab
    by_contra hlt
    push_neg at hlt
    apply hab
    rw [pageCmpTie_eq_then]
    have hgt : pageCmp SortBy.UpdateDate a b = .gt := by
      show compare (unwrapN (maxOpt b.datetime b.updated_datetime))
          (unwrapN (maxOpt a.datetime a.updated_datetime)) = .gt
      rw [unwrapN_maxOpt, unwrapN_maxOpt]
      exact Nat.compare_eq_gt.mpr hlt
    rw [hgt]
    rfl

/-- C6: under `ByPrimaryDate` the sorted bucket is weakly decreasing in
the primary datetime (so of two records with distinct dates the later one
appears earlier), every record in it carries a date, and the
specification's example batch dated 2017, 2018, 2019 comes out as
[2019, 2018, 2017]. -/
theorem date_descending :
    (∀ ps : List Page,
        List.Pairwise (fun a b => unwrapN b.datetime ≤ unwrapN a.datetime)
          (sorted_pages_list ps SortBy.Date))
    ∧ (∀ ps : List Page, ∀ p ∈ sorted_pages_list ps SortBy.Date,
        p.datetime.isSome = true)
    ∧ sort_pages [pD2017, pD2018, pD2019] SortBy.Date =
        some ([pD2019.path, pD2018.path, pD2017.path], []) := by
  refine ⟨?_, ?_, by decide⟩
  · intro ps
    have hs := sorted_sorted_pages_list ps SortBy.Date (by intro h; cases h)
    refine List.Pairwise.imp ?_ hs
    intro a b hab
    by_contra hlt
    push_neg at hlt
    apply hab
    rw [pageCmpTie_eq_then]
    have hgt : pageCmp SortBy.Date a b = .gt := by
      show compare (unwrapN b.datetime) (unwrapN a.datetime) = .gt
      exact Nat.compare_eq_gt.mpr hlt
    rw [hgt]
    rfl
  · intro ps p hp
    have hq : p ∈ can_be_sorted ps SortBy.Date :=
      (perm_sorted_can ps SortBy.Date).mem_iff.mp hp
    exact (mem_can_be_sorted.mp hq).2

/-- Witness for C6 at the example batch: the record placed second indeed
carries a date. -/
theorem date_descending_witness : pD2018.datetime.isSome = true :=
  date_descending.2.1 [pD2017, pD2018, pD2019] pD2018 (by decide)

/-- C7: the specification's twelve-title batch sorted by `ByTitleNatural`
yields the natural collation order, and sorted by `ByTitleRaw` yields
pure code-unit order — all ASCII-letter titles (ordered by case) before
the accented ones, and `track_13` before `track_3`. -/
theorem twelve_title_order :
    sort_pages titlePages SortBy.Title =
      some ([FPath.utf8 "content/hello-åland.md",
        FPath.utf8 "content/hello-bagel.md",
        FPath.utf8 "content/hello-BART.md",
        FPath.utf8 "content/hello-μ-kernel.md",
        FPath.utf8 "content/hello-meter.md",
        FPath.utf8 "content/hello-métro.md",
        FPath.utf8 "content/hello-microkernel.md",
        FPath.utf8 "content/hello-Österrike.md",
        FPath.utf8 "content/hello-track_1.md",
        FPath.utf8 "content/hello-track_3.md",
        FPath.utf8 "content/hello-track_13.md",
        FPath.utf8 "content/hello-Underground.md"], [])
    ∧ sort_pages titlePages SortBy.TitleBytes =
      some ([FPath.utf8 "content/hello-BART.md",
        FPath.utf8 "content/hello-Underground.md",
        FPath.utf8 "content/hello-bagel.md",
        FPath.utf8 "content/hello-meter.md",
        FPath.utf8 "content/hello-microkernel.md",
        FPath.utf8 "content/hello-métro.md",
        FPath.utf8 "content/hello-track_1.md",
        FPath.utf8 "content/hello-track_13.md",
        FPath.utf8 "content/hello-track_3.md",
        FPath.utf8 "content/hello-Österrike.md",
        FPath.utf8 "content/hello-åland.md",
        FPath.utf8 "content/hello-μ-kernel.md"], []) :=
  ⟨by decide, by decide⟩

/-- C8 counterexample: the non-displayable fallback of
`ByIdentifierNatural` is not exact lexicographic comparison of the raw
path representation.  The source falls back to `PathBuf::cmp`, which
compares component-wise: on the non-displayable identifiers
`0xFF 0x2F 0x61` and `0xFF 0x2D 0x61` the comparator answers less-than
while raw byte order answers greater-than (the order flips around the
separator), and the byte-distinct identifiers `0xFF 0x2F 0x61` and
`0xFF 0x2F 0x2F 0x61` compare equal because a repeated separator is
normalized away. -/
theorem identifier_fallback_not_raw_cex :
    pathToStr cexM.path = none ∧ pathToStr cexN.path = none
    ∧ pathToStr cexP.path = none
    ∧ pageCmp SortBy.Path cexM cexN = .lt
    ∧ bytesCmp (rawBytes cexM.path) (rawBytes cexN.path) = .gt
    ∧ pageCmp SortBy.Path cexM cexP = .eq
    ∧ rawBytes cexM.path ≠ rawBytes cexP.path := by
  decide

/-- C8 (amended): under `ByIdentifierNatural` every pair is compared by
natural-order comparison of the displayable path strings when both are
representable; when either identifier is not representable as a
displayable string the comparison falls back to Rust path ordering of
the raw representation — the component sequences obtained by splitting at
separators (with `.`-piece and repeated-separator normalization) compared
lexicographically — which coincides with exact lexicographic byte
comparison whenever both identifiers are single-component (nonempty, no
separator, and neither `.` nor `..`); order is ascending, so the
identifiers 1, 10, 2 come out as [1, 2, 10]. -/
theorem identifier_natural_order :
    (∀ (a b : Page) (sa sb : String),
        pathToStr a.path = some sa → pathToStr b.path = some sb →
        pageCmp SortBy.Path a b = natural_lexical_cmp sa sb)
    ∧ (∀ a b : Page, pathToStr a.path = none ∨ pathToStr b.path = none →
        pageCmp SortBy.Path a b =
          listCmp pathCompCmp (pathComponents (rawBytes a.path))
            (pathComponents (rawBytes b.path)))
    ∧ (∀ a b : Page, pathToStr a.path = none ∨ pathToStr b.path = none →
        rawBytes a.path ≠ [] → ¬ 47 ∈ rawBytes a.path →
        rawBytes a.path ≠ [46] → rawBytes a.path ≠ [46, 46] →
        rawBytes b.path ≠ [] → ¬ 47 ∈ rawBytes b.path →
        rawBytes b.path ≠ [46] → rawBytes b.path ≠ [46, 46] →
        pageCmp SortBy.Path a b = bytesCmp (rawBytes a.path) (rawBytes b.path))
    ∧ sort_pages [pid1, pid10, pid2] SortBy.Path =
        some ([pid1.path, pid2.path, pid10.path], []) := by
  refine ⟨fun _ _ _ _ ha hb => pageCmp_path_disp ha hb,
    fun _ _ h => pageCmp_path_raw h, ?_, by decide⟩
  intro a b hfall hne1 hs1 hd1 hdd1 hne2 hs2 hd2 hdd2
  rw [pageCmp_path_raw hfall, pathBufCmp,
    pathComponents_single hne1 hs1 hd1 hdd1,
    pathComponents_single hne2 hs2 hd2 hdd2, listCmp_cons]
  show (bytesCmp (rawBytes a.path) (rawBytes b.path)).then Ordering.eq = _
  exact then_eq_right _

/-- Witness for C8: the comparator on the displayable identifiers 2 and
10 is their natural-order comparison; against the non-displayable
single-component identifier `0x31 0xFF` it is the component-wise
comparison, which there is the raw byte comparison. -/
theorem identifier_natural_order_witness :
    pageCmp SortBy.Path pid2 pid10 = natural_lexical_cmp "2" "10"
    ∧ pageCmp SortBy.Path pid1 cexZ =
        listCmp pathCompCmp (pathComponents (rawBytes pid1.path))
          (pathComponents (rawBytes cexZ.path))
    ∧ pageCmp SortBy.Path pid1 cexZ =
        bytesCmp (rawBytes pid1.path) (rawBytes cexZ.path) :=
  ⟨identifier_natural_order.1 pid2 pid10 "2" "10" rfl rfl,
   identifier_natural_order.2.1 pid1 cexZ (Or.inr rfl),
   identifier_natural_order.2.2.1 pid1 cexZ (Or.inr rfl) (by decide) (by decide)
     (by decide) (by decide) (by decide) (by decide) (by decide) (by decide)⟩

/-- C2 counterexample: under `ByIdentifierNatural` the tie-broken
comparator is not transitive once a non-displayable identifier is
involved, so it is not a strict total order as claimed.  All three
records are eligible and have pairwise distinct permalinks; the record
with identifier `2` orders before the one with identifier `10`
(natural-order, 2 < 10), `10` orders before the raw identifier
`0x31 0xFF` (byte order), yet `2` orders after that raw identifier
(byte order), closing a cycle. -/
theorem comparator_cycle_cex :
    eligible SortBy.Path cexA = true ∧ eligible SortBy.Path cexB = true
    ∧ eligible SortBy.Path cexZ = true
    ∧ cexA.permalink ≠ cexB.permalink ∧ cexB.permalink ≠ cexZ.permalink
    ∧ cexA.permalink ≠ cexZ.permalink
    ∧ pageCmpTie SortBy.Path cexA cexB = .lt
    ∧ pageCmpTie SortBy.Path cexB cexZ = .lt
    ∧ pageCmpTie SortBy.Path cexA cexZ = .gt := by
  decide

/-- C2 (amended): for every criterion other than `NoOrder`, on eligible
records with distinct `rank_tiebreak` (permalink) values the tie-broken
comparator never reports equality and answers the swapped pair with the
swapped verdict — so exactly one of less-than, equal, greater-than holds
per pair — and it is transitive, provided that under
`ByIdentifierNatural` the identifiers involved are representable as
displayable strings. -/
theorem comparator_strict_total_order :
    ∀ (c : SortBy) (a b d : Page), c ≠ SortBy.None →
      eligible c a = true → eligible c b = true → eligible c d = true →
      a.permalink ≠ b.permalink →
      (c = SortBy.Path →
        (pathToStr a.path).isSome = true ∧ (pathToStr b.path).isSome = true
          ∧ (pathToStr d.path).isSome = true) →
      pageCmpTie c a b ≠ .eq
      ∧ pageCmpTie c b a = (pageCmpTie c a b).swap
      ∧ (pageCmpTie c a b = .lt → pageCmpTie c b d = .lt →
          pageCmpTie c a d = .lt) := by
  intro c a b d _ _ _ _ hperm hdisp
  refine ⟨?_, cmpSymm_pageCmpTie c a b, ?_⟩
  · intro he
    exact hperm (pageCmpTie_eq_imp_permalink he)
  · intro h1 h2
    by_cases hp : c = SortBy.Path
    · subst hp
      obtain ⟨ha, hb, hd⟩ := hdisp rfl
      obtain ⟨sa, hsa⟩ := Option.isSome_iff_exists.mp ha
      obtain ⟨sb, hsb⟩ := Option.isSome_iff_exists.mp hb
      obtain ⟨sd, hsd⟩ := Option.isSome_iff_exists.mp hd
      rw [pageCmpTie_path_disp hsa hsb] at h1
      rw [pageCmpTie_path_disp hsb hsd] at h2
      rw [pageCmpTie_path_disp hsa hsd]
      exact isCmp_pathNatTie.lt_trans h1 h2
    · exact (isCmp_pageCmpTie_ne_path c hp).lt_trans h1 h2

/-- Witness for the amended C2 at the displayable identifiers 1, 10, 2
under `ByIdentifierNatural`. -/
theorem comparator_strict_total_order_witness :
    pageCmpTie SortBy.Path pid1 pid10 ≠ .eq
    ∧ pageCmpTie SortBy.Path pid10 pid1 = (pageCmpTie SortBy.Path pid1 pid10).swap
    ∧ (pageCmpTie SortBy.Path pid1 pid10 = .lt →
        pageCmpTie SortBy.Path pid10 pid2 = .lt →
        pageCmpTie SortBy.Path pid1 pid2 = .lt) :=
  comparator_strict_total_order SortBy.Path pid1 pid10 pid2 (by decide)
    rfl rfl rfl (by decide) (fun _ => ⟨rfl, rfl, rfl⟩)

end SortingSpec
